import Mathlib

/-!
Verification development for the Creek_monitor repository.

The definitions below are a shallow embedding of the data-processing core of
`src/app.py` and `src/chatbot.py`:

* the numeric-field cleaning stage (module level of `app.py`, lines 84-88);
* the weekly aggregation and latest-reading selection (`app.py`, lines 112-124);
* the query tools `get_trends` and `compare_sites` of
  `chatbot.CreekDataTools` (`src/chatbot.py`);
* the nearest-site resolution callback `pick_nearest_site` (`app.py`,
  lines 514-572).

Measurement values are modelled as `Option ℚ` where `none` stands for a
missing value (pandas `NaN`); dates are modelled by their position in time as
natural numbers (only their ordering matters to the code under study).
-/

/-! ## Cleaner: the module-level numeric coercion of `app.py` lines 84-88 -/

/-- Model of `str.replace(r"[>]", "", regex=True)`: the regex character class
matches every occurrence of the greater-than sign, so all of them are
removed. -/
def stripGt (s : String) : String :=
  String.mk (s.toList.filter (fun c => c ≠ '>'))

/-- Numeric value of a list of decimal digit characters. -/
def digitsVal (cs : List Char) : Nat :=
  cs.foldl (fun a c => a * 10 + (c.toNat - 48)) 0

/-- Model of the scalar parser underlying `pd.to_numeric`: an optional sign,
an integer part and an optional fractional part, all decimal.  Strings that
are not of this shape do not parse. -/
def parseNum (s : String) : Option ℚ :=
  let body : List Char → Option ℚ := fun cs =>
    let ip := cs.takeWhile (fun c => c ≠ '.')
    let rest := cs.dropWhile (fun c => c ≠ '.')
    if ip.all Char.isDigit then
      match rest with
      | [] => if ip.isEmpty then none else some (digitsVal ip)
      | _ :: fp =>
          if fp.all Char.isDigit ∧ ¬ (ip.isEmpty ∧ fp.isEmpty) then
            some (digitsVal ip + (digitsVal fp : ℚ) / ((10 : ℚ) ^ fp.length))
          else none
    else none
  match s.toList with
  | '-' :: cs => (body cs).map (fun q => -q)
  | '+' :: cs => body cs
  | cs => body cs

/-- The value-level cleaning applied to the coliform columns: remove the
censoring marker, then parse. -/
def cleanField (s : String) : Option ℚ :=
  parseNum (stripGt s)

/-- Cleaning of `tot_coli_conc` and `ecoli_conc` (`app.py` lines 84-87):
`pd.to_numeric` is called without `errors="coerce"`, so its default
`errors="raise"` applies — a present value that does not parse raises a
`ValueError` (modelled as `Except.error ()`).  A missing value (`NaN`)
passes through. -/
def clean_coli (v : Option String) : Except Unit (Option ℚ) :=
  match v with
  | none => Except.ok none
  | some s =>
      match parseNum (stripGt s) with
      | some q => Except.ok (some q)
      | none => Except.error ()

/-- Cleaning of `tubidity` (`app.py` line 88): `pd.to_numeric` with
`errors="coerce"`, which turns unparsable values into `NaN` and never
raises. -/
def clean_turbidity (v : Option String) : Option ℚ :=
  v.bind parseNum

/-! ## Data model: measurement rows and fields -/

/-- The four numeric measurement columns kept by the pipeline. -/
inductive MField where
  | totColi
  | ecoli
  | ph
  | turbidity
deriving DecidableEq

/-- A measurement row: one cleaned sample, or one weekly bucket, for a site.
`week` models `WeekDate` (only its ordering matters); the four measurement
fields are `none` when the underlying value is `NaN`. -/
structure MRow where
  site : String
  week : Nat
  totColi : Option ℚ
  ecoli : Option ℚ
  ph : Option ℚ
  turbidity : Option ℚ
deriving DecidableEq

/-- Column selection on a measurement row. -/
def getField : MField → MRow → Option ℚ
  | .totColi, r => r.totColi
  | .ecoli, r => r.ecoli
  | .ph, r => r.ph
  | .turbidity, r => r.turbidity

/-! ## Sorting by week

`df.sort_values(["site", "WeekDate"])` and `sort_values('WeekDate')` order a
site's rows by week.  After the weekly aggregation the `(site, week)` keys are
unique, so any comparison sort produces the same order; we model it with
insertion sort. -/

/-- Insert a row into a list sorted by ascending week. -/
def insertByWeek (r : MRow) : List MRow → List MRow
  | [] => [r]
  | x :: xs => if r.week ≤ x.week then r :: x :: xs else x :: insertByWeek r xs

/-- Sort rows by ascending week. -/
def sortByWeek (rows : List MRow) : List MRow :=
  rows.foldr insertByWeek []

/-! ## Aggregator: `groupby(["WeekDate", "site", "site_full"]).mean()`
(`app.py` lines 112-117).  `site_full` is a function of `site`, so the group
key is `(site, week)`.  The pandas mean skips `NaN`; a group whose values are
all `NaN` for a field keeps `NaN` there. -/

/-- The rows of one group key. -/
def groupRows (siteCode : String) (week : Nat) (samples : List MRow) : List MRow :=
  samples.filter (fun r => r.site == siteCode && r.week == week)

/-- Arithmetic mean of a list of rationals, `none` on the empty list
(the pandas mean of an all-`NaN` column). -/
def meanOpt (vs : List ℚ) : Option ℚ :=
  if vs.isEmpty then none else some (vs.sum / (vs.length : ℚ))

/-- Per-field mean over the non-null values of a group. -/
def aggField (f : MField) (rows : List MRow) : Option ℚ :=
  meanOpt (rows.filterMap (getField f))

/-- The weekly bucket of a `(site, week)` key, or `none` when no sample maps
to that key (pandas groupby produces no group for an absent key). -/
def aggregateAt (samples : List MRow) (siteCode : String) (week : Nat) : Option MRow :=
  if (groupRows siteCode week samples).isEmpty then none
  else
    some ⟨siteCode, week, aggField .totColi (groupRows siteCode week samples),
          aggField .ecoli (groupRows siteCode week samples),
          aggField .ph (groupRows siteCode week samples),
          aggField .turbidity (groupRows siteCode week samples)⟩

/-! ## Latest-reading selection: `df_recent` and the catalog merge
(`app.py` lines 120-124). -/

/-- One row of the merged summary table: the left join with the site catalog
leaves every field `none` for a catalog site with no data. -/
structure SummaryRow where
  site : String
  week : Option Nat
  totColi : Option ℚ
  ecoli : Option ℚ
  ph : Option ℚ
  turbidity : Option ℚ
deriving DecidableEq

/-- Field selection on a summary row. -/
def getSField : MField → SummaryRow → Option ℚ
  | .totColi, r => r.totColi
  | .ecoli, r => r.ecoli
  | .ph, r => r.ph
  | .turbidity, r => r.turbidity

/-- Model of the column-wise `GroupBy.last()` semantics: the last non-null
entry of a column, scanning in list order. -/
def lastNN (f : MRow → Option ℚ) (rows : List MRow) : Option ℚ :=
  rows.foldl (fun acc r => match f r with | some v => some v | none => acc) none

/-- Week of the last row of a list. -/
def lastWeek (rows : List MRow) : Option Nat :=
  rows.getLast?.map (fun r => r.week)

/-- The `df_recent` row of one site
(`df.sort_values(["site","WeekDate"]).groupby("site").last()`), joined left
with the catalog: a site with no rows keeps every field null.  Note that
pandas `GroupBy.last` takes the last non-null entry of each column
independently. -/
def recentFor (siteCode : String) (buckets : List MRow) : SummaryRow :=
  let rows := sortByWeek (buckets.filter (fun r => r.site == siteCode))
  if rows.isEmpty then ⟨siteCode, none, none, none, none, none⟩
  else
    ⟨siteCode, lastWeek rows, lastNN (getField .totColi) rows,
     lastNN (getField .ecoli) rows, lastNN (getField .ph) rows,
     lastNN (getField .turbidity) rows⟩

/-- The summary set: `pd.merge(site_loc, df_recent, how="left")`, one row per
catalog site in catalog order. -/
def buildSummary (catalog : List String) (buckets : List MRow) : List SummaryRow :=
  catalog.map (fun s => recentFor s buckets)

/-- Maximum week among a list of rows. -/
def maxW : List MRow → Option Nat
  | [] => none
  | r :: rs =>
      match maxW rs with
      | none => some r.week
      | some m => some (if r.week ≤ m then m else r.week)

/-- The row carrying the maximum week (the first such row in list order). -/
def argmaxWeek (rows : List MRow) : Option MRow :=
  match maxW rows with
  | none => none
  | some w => rows.find? (fun r => r.week == w)

/-- Modelled from the spec: `SiteSummary.latest` is the whole bucket with the
maximum `weekStart`, every field taken from that single bucket, and null for
a site with no buckets.  Used to compare the specified behaviour with the
implemented `recentFor`. -/
def specLatestRow (siteCode : String) (buckets : List MRow) : SummaryRow :=
  match argmaxWeek (buckets.filter (fun r => r.site == siteCode)) with
  | none => ⟨siteCode, none, none, none, none, none⟩
  | some r => ⟨siteCode, some r.week, r.totColi, r.ecoli, r.ph, r.turbidity⟩

/-! ## QueryService: `CreekDataTools` of `src/chatbot.py` -/

/-- The hard-coded site registry `self.color_map` of `CreekDataTools`:
`(code, full display name)` pairs in insertion order. -/
def color_map : List (String × String) :=
  [("peav@oldb", "Peavine creek/Old briarcliff way"),
   ("peav@ndec", "Peavine creek/Oxford Rd NE"),
   ("peav@vick", "Peavine creek/Chelsea Cir NE"),
   ("lull@lull", "Lullwater creek/Lullwater Rd NE")]

/-- Model of Python `str.lower()` on the ASCII site names in play. -/
def strLower (s : String) : String :=
  String.mk (s.toList.map Char.toLower)

/-- Site-name resolution shared by `get_trends` and `get_site_info`: lower
the input, first try a full display name (first match in insertion order),
then a site code. -/
def resolveSite (site_name : String) : Option String :=
  let n := strLower site_name
  match color_map.find? (fun p => strLower p.2 == n) with
  | some p => some p.1
  | none => if color_map.any (fun p => p.1 == n) then some n else none

/-- Model of pandas `DataFrame.tail(n)`: the last `n` rows for `n ≥ 0`, and
all rows but the first `-n` for negative `n`. -/
def tailN (n : Int) (xs : List MRow) : List MRow :=
  if 0 ≤ n then xs.drop (xs.length - n.toNat) else xs.drop (-n).toNat

/-- Last element of a nonempty list, as in `.iloc[-1]`. -/
def lastRow : MRow → List MRow → MRow
  | r, [] => r
  | _, x :: xs => lastRow x xs

/-- A site's bucket rows, sorted by week: the
`self.df[self.df['site'] == site_code].sort_values('WeekDate')` idiom. -/
def siteBuckets (df : List MRow) (code : String) : List MRow :=
  sortByWeek (df.filter (fun r => r.site == code))

/-- Subtraction with `NaN` propagation. -/
def subO : Option ℚ → Option ℚ → Option ℚ
  | some a, some b => some (a - b)
  | _, _ => none

/-- Division with `NaN` propagation. -/
def divO : Option ℚ → Option ℚ → Option ℚ
  | some a, some b => some (a / b)
  | _, _ => none

/-- Multiplication with `NaN` propagation. -/
def mulO : Option ℚ → Option ℚ → Option ℚ
  | some a, some b => some (a * b)
  | _, _ => none

/-- Outcomes of `CreekDataTools.get_trends`.  The string results of the
Python method are distinguished by their kind; a successful analysis carries
the `(week, value)` points in the order they are reported, the first-to-last
change and the percentage change. -/
inductive TrendResult where
  | siteNotFound
  | noData
  | noRecentData
  | insufficient
  | trend (points : List (Nat × Option ℚ)) (change : Option ℚ) (changePercent : Option ℚ)
deriving DecidableEq

/-- Model of `CreekDataTools.get_trends` (`src/chatbot.py` lines 105-154):
resolve the site name; `"No data available"` when the site has no rows;
take the last `weeks` rows of the week-sorted data; `"No recent data"` when
that window is empty, `"Insufficient data"` when it has fewer than two rows;
otherwise report the window with `change = last - first` and
`change_percent = change / first * 100`, or `0` when the first value is
exactly `0`. -/
def get_trends (df : List MRow) (site_name : String) (measurement : MField)
    (weeks : Int) : TrendResult :=
  match resolveSite site_name with
  | none => TrendResult.siteNotFound
  | some code =>
      if (siteBuckets df code).isEmpty then TrendResult.noData
      else
        match tailN weeks (siteBuckets df code) with
        | [] => TrendResult.noRecentData
        | [_] => TrendResult.insufficient
        | r :: r2 :: rest =>
            let first := getField measurement r
            let lastv := getField measurement (lastRow r2 rest)
            let change := subO lastv first
            let cp := if first = some 0 then some 0
                      else mulO (divO change first) (some 100)
            TrendResult.trend
              ((r :: r2 :: rest).map (fun x => (x.week, getField measurement x)))
              change cp

/-- One entry of the `compare_sites` ranking:
`(full site name, latest value of the field, week of the latest row)`. -/
abbrev CompEntry := String × Option ℚ × Nat

/-- Outcomes of `CreekDataTools.compare_sites`. -/
inductive CompareResult where
  | noData
  | ranking (entries : List CompEntry)
deriving DecidableEq

/-- The latest row of a site, `sort_values('WeekDate').iloc[-1]`, or `none`
when the site has no rows. -/
def latestOf (df : List MRow) (code : String) : Option MRow :=
  match siteBuckets df code with
  | [] => none
  | r :: rs => some (lastRow r rs)

/-- The Python comparison `x['value'] < y['value']` on values that may be
`NaN`: any comparison involving `NaN` is false. -/
def ltVal : Option ℚ → Option ℚ → Bool
  | some a, some b => decide (a < b)
  | _, _ => false

/-- Stable descending insertion: an element moves past `y` only when it is
strictly smaller than `y`, so equal values keep their original order, as
Python's stable `list.sort(key=..., reverse=True)` does.  For totally ordered
keys this coincides with the Python sort. -/
def insDesc (x : CompEntry) : List CompEntry → List CompEntry
  | [] => [x]
  | y :: ys => if ltVal x.2.1 y.2.1 then y :: insDesc x ys else x :: y :: ys

/-- Sort entries by value descending (stable). -/
def sortDesc (l : List CompEntry) : List CompEntry :=
  l.foldr insDesc []

/-- The comparison entry contributed by one `color_map` site: skipped when
the site has no rows, otherwise the latest row's field value and week. -/
def compEntryOf (df : List MRow) (measurement : MField) (p : String × String) :
    Option CompEntry :=
  match latestOf df p.1 with
  | none => none
  | some r => some (p.2, getField measurement r, r.week)

/-- Model of `CreekDataTools.compare_sites` (`src/chatbot.py` lines 181-226):
for each `color_map` site that has rows, take the latest row's field value
and week; `"No data available for comparison."` when no site has rows;
otherwise sort the collected entries by value descending. -/
def compare_sites (df : List MRow) (measurement : MField) : CompareResult :=
  if (color_map.filterMap (compEntryOf df measurement)).isEmpty then
    CompareResult.noData
  else CompareResult.ranking (sortDesc (color_map.filterMap (compEntryOf df measurement)))

/-! ## NearestSiteResolver: `pick_nearest_site` of `app.py` lines 514-572 -/

/-- One row of the `site` table iterated by the resolver: the display name
and the coordinates sent to the routing service. -/
structure SiteRow where
  site_full : String
  lat : ℚ
  lon : ℚ
deriving DecidableEq

/-- Outcome of one `gmaps.directions` call for one site: a usable route with
integer distance (meters) and duration (seconds), an empty result
(`if not directions`), or a raised exception. -/
inductive RouteResp where
  | route (dist dur : Nat)
  | noRoute
  | err
deriving DecidableEq

/-- The no-route alert text of the callback. -/
def noRouteMsg : String :=
  "No walking route found. Try a different address or check your spelling."

/-- Observable outcome of the `pick_nearest_site` callback: `preventUpdate`
for a falsy address, a best site with its distance and duration, the
no-route alert, or the `except Exception` branch. -/
inductive ResolveResult where
  | preventUpdate
  | found (site_full : String) (distM durS : Nat)
  | notFound (msg : String)
  | error
deriving DecidableEq

/-- The per-site loop of `pick_nearest_site`: walk the site table carrying
the running best `(site, distance, duration)`; an empty directions result
skips the site; a raised exception escapes to the callback-level handler
(`Except.error`); a strictly smaller distance replaces the running best. -/
def resolveGo (resp : SiteRow → RouteResp) :
    List SiteRow → Option (SiteRow × Nat × Nat) →
    Except Unit (Option (SiteRow × Nat × Nat))
  | [], best => Except.ok best
  | s :: rest, best =>
      match resp s with
      | .err => Except.error ()
      | .noRoute => resolveGo resp rest best
      | .route d t =>
          match best with
          | none => resolveGo resp rest (some (s, d, t))
          | some (bs, bd, bt) =>
              if d < bd then resolveGo resp rest (some (s, d, t))
              else resolveGo resp rest (some (bs, bd, bt))

/-- Model of the callback `pick_nearest_site` (`app.py` lines 514-572).
`resp` is the oracle of per-site routing responses for the given origin
address.  An empty address raises `PreventUpdate`; an exception anywhere in
the loop is caught by the callback-wide `except` and reported as an error;
otherwise the running best, if any, is returned. -/
def pick_nearest_site (address : String) (resp : SiteRow → RouteResp)
    (sites : List SiteRow) : ResolveResult :=
  if address = "" then ResolveResult.preventUpdate
  else
    match resolveGo resp sites none with
    | Except.error () => ResolveResult.error
    | Except.ok none => ResolveResult.notFound noRouteMsg
    | Except.ok (some (s, d, t)) => ResolveResult.found s.site_full d t

/-- Modelled from the spec: the stable minimum fold over the successful
routes — among sites with a usable route, keep the one with the smallest
distance, the earlier site winning exact ties. -/
def specFold (resp : SiteRow → RouteResp) : List SiteRow → Option (SiteRow × Nat × Nat)
  | [] => none
  | s :: rest =>
      match resp s with
      | .route d t =>
          match specFold resp rest with
          | none => some (s, d, t)
          | some (s2, d2, t2) =>
              if d2 < d then some (s2, d2, t2) else some (s, d, t)
      | _ => specFold resp rest

/-- The resolver result predicted by the spec wording, built from
`specFold`. -/
def nearestSpec (resp : SiteRow → RouteResp) (sites : List SiteRow) : ResolveResult :=
  match specFold resp sites with
  | none => ResolveResult.notFound noRouteMsg
  | some (s, d, t) => ResolveResult.found s.site_full d t

/-! ## Concrete fixtures used by counterexamples and witnesses -/

/-- Site table entry used in resolver scenarios. -/
def siteA : SiteRow := ⟨"A", 1, 2⟩

/-- Site table entry used in resolver scenarios. -/
def siteB : SiteRow := ⟨"B", 3, 4⟩

/-- Site table entry used in resolver scenarios. -/
def siteC : SiteRow := ⟨"C", 5, 6⟩

/-- Routing oracle: distances 500, 300, 700 for A, B, C. -/
def respMin : SiteRow → RouteResp := fun s =>
  if s.site_full = "A" then RouteResp.route 500 100
  else if s.site_full = "B" then RouteResp.route 300 120
  else RouteResp.route 700 200

/-- Routing oracle: A has a route at 500, B raises, C has a route at 700. -/
def respAbortMid : SiteRow → RouteResp := fun s =>
  if s.site_full = "A" then RouteResp.route 500 100
  else if s.site_full = "B" then RouteResp.err
  else RouteResp.route 700 200

/-- Routing oracle: A has a route at 500, B raises, C has a route at 300. -/
def respAbortSkip : SiteRow → RouteResp := fun s =>
  if s.site_full = "A" then RouteResp.route 500 100
  else if s.site_full = "B" then RouteResp.err
  else RouteResp.route 300 50

/-- Routing oracle: no site has a route. -/
def respNone : SiteRow → RouteResp := fun _ => RouteResp.noRoute

/-- Routing oracle: B has no route, A and C have routes. -/
def respSkipDemo : SiteRow → RouteResp := fun s =>
  if s.site_full = "B" then RouteResp.noRoute
  else if s.site_full = "A" then RouteResp.route 400 80
  else RouteResp.route 600 90

/-- Two samples of one group, used to exercise permutation invariance. -/
def aggR1 : MRow := ⟨"a", 1, none, some 2, none, none⟩

/-- Two samples of one group, used to exercise permutation invariance. -/
def aggR2 : MRow := ⟨"a", 1, some 4, some 4, none, some 1⟩

/-- Buckets where the latest bucket has a null turbidity but an earlier one
does not. -/
def mixedBuckets : List MRow :=
  [⟨"a", 1, some 1, some 100, some 7, some 5⟩,
   ⟨"a", 2, some 1, some 200, some 7, none⟩]

/-- Buckets whose latest bucket is fully populated. -/
def fullBuckets : List MRow :=
  [⟨"a", 1, some 1, some 100, some 7, some 5⟩,
   ⟨"a", 2, some 3, some 200, some 8, some 6⟩]

/-- Three weekly buckets for `peav@oldb`, used for trend scenarios. -/
def trendDf : List MRow :=
  [⟨"peav@oldb", 1, none, some 10, none, none⟩,
   ⟨"peav@oldb", 2, none, some 30, none, none⟩,
   ⟨"peav@oldb", 3, none, some 20, none, none⟩]

/-- Two weekly buckets whose first E. coli value is zero. -/
def zeroBaselineDf : List MRow :=
  [⟨"peav@oldb", 1, none, some 0, none, none⟩,
   ⟨"peav@oldb", 2, none, some 5, none, none⟩]

/-- One site with one bucket whose E. coli value is null. -/
def nullLatestDf : List MRow :=
  [⟨"peav@oldb", 3, some 1, none, some 7, some 2⟩]

/-- Two sites with data and non-null latest E. coli values. -/
def twoSiteDf : List MRow :=
  [⟨"peav@oldb", 1, none, some 50, none, none⟩,
   ⟨"peav@ndec", 2, none, some 80, none, none⟩]

/-! ## Helper lemmas -/

theorem insertByWeek_perm (r : MRow) (l : List MRow) :
    (insertByWeek r l).Perm (r :: l) := by
  induction l with
  | nil => simp [insertByWeek]
  | cons x xs ih =>
      simp only [insertByWeek]
      by_cases h : r.week ≤ x.week
      · simp [h]
      · simp only [h, if_false]
        exact (ih.cons x).trans (List.Perm.swap r x xs)

theorem sortByWeek_perm (l : List MRow) : (sortByWeek l).Perm l := by
  induction l with
  | nil => simp [sortByWeek]
  | cons x xs ih =>
      simpa [sortByWeek] using (insertByWeek_perm x (sortByWeek xs)).trans (ih.cons x)

theorem insertByWeek_sorted (r : MRow) (l : List MRow)
    (h : List.Pairwise (fun a b : MRow => a.week ≤ b.week) l) :
    List.Pairwise (fun a b : MRow => a.week ≤ b.week) (insertByWeek r l) := by
  induction l with
  | nil => simp [insertByWeek]
  | cons x xs ih =>
      obtain ⟨hx, hxs⟩ := List.pairwise_cons.mp h
      simp only [insertByWeek]
      by_cases hr : r.week ≤ x.week
      · rw [if_pos hr]
        refine List.Pairwise.cons ?_ h
        intro b hb
        rcases List.mem_cons.mp hb with hb | hb
        · subst hb; exact hr
        · exact le_trans hr (hx b hb)
      · rw [if_neg hr]
        refine List.Pairwise.cons ?_ (ih hxs)
        intro b hb
        rcases List.mem_cons.mp ((insertByWeek_perm r xs).mem_iff.mp hb) with hb | hb
        · subst hb; omega
        · exact hx b hb

theorem sortByWeek_sorted (l : List MRow) :
    List.Pairwise (fun a b : MRow => a.week ≤ b.week) (sortByWeek l) := by
  induction l with
  | nil => simp [sortByWeek]
  | cons x xs ih => simpa [sortByWeek] using insertByWeek_sorted x (sortByWeek xs) ih

theorem getLast?_lastRow (x : MRow) (xs : List MRow) :
    (x :: xs).getLast? = some (lastRow x xs) := by
  induction xs generalizing x with
  | nil => simp [lastRow]
  | cons y ys ih => simpa [lastRow] using ih y

theorem sorted_getLast_ub :
    ∀ (l : List MRow) (g : MRow),
      List.Pairwise (fun a b : MRow => a.week ≤ b.week) l →
      l.getLast? = some g → ∀ x ∈ l, x.week ≤ g.week := by
  intro l
  induction l with
  | nil => intro g _ hg; simp at hg
  | cons a t ih =>
      intro g hs hg x hx
      obtain ⟨ha, ht⟩ := List.pairwise_cons.mp hs
      cases t with
      | nil =>
          have hag : a = g := by simpa using hg
          rcases List.mem_cons.mp hx with h1 | h1
          · simp [h1, hag]
          · simp at h1
      | cons b u =>
          have hg2 : (b :: u).getLast? = some g := by
            rw [List.getLast?_cons_cons] at hg; exact hg
          rcases List.mem_cons.mp hx with h1 | h1
          · subst h1
            exact ha g (List.mem_of_getLast?_eq_some hg2)
          · exact ih g ht hg2 x h1

theorem maxW_eq_none (l : List MRow) : maxW l = none ↔ l = [] := by
  cases l with
  | nil => simp [maxW]
  | cons r rs =>
      simp only [maxW]
      cases maxW rs <;> simp

theorem maxW_mem (l : List MRow) (w : Nat) (h : maxW l = some w) :
    ∃ r ∈ l, r.week = w := by
  induction l generalizing w with
  | nil => simp [maxW] at h
  | cons r rs ih =>
      cases hm : maxW rs with
      | none =>
          simp only [maxW, hm, Option.some.injEq] at h
          exact ⟨r, by simp, h⟩
      | some m =>
          simp only [maxW, hm, Option.some.injEq] at h
          by_cases hc : r.week ≤ m
          · rw [if_pos hc] at h
            obtain ⟨r2, hr2, hw2⟩ := ih m hm
            exact ⟨r2, List.mem_cons_of_mem _ hr2, by omega⟩
          · rw [if_neg hc] at h
            exact ⟨r, List.mem_cons_self _ _, by omega⟩

theorem maxW_ub (l : List MRow) (w : Nat) (h : maxW l = some w) :
    ∀ r ∈ l, r.week ≤ w := by
  induction l generalizing w with
  | nil => simp
  | cons r rs ih =>
      intro x hx
      cases hm : maxW rs with
      | none =>
          simp only [maxW, hm, Option.some.injEq] at h
          have hrs := (maxW_eq_none rs).mp hm
          subst hrs
          rcases List.mem_cons.mp hx with h1 | h1
          · subst h1; omega
          · simp at h1
      | some m =>
          simp only [maxW, hm, Option.some.injEq] at h
          rcases List.mem_cons.mp hx with h1 | h1
          · subst h1
            by_cases hc : x.week ≤ m
            · rw [if_pos hc] at h; omega
            · rw [if_neg hc] at h; omega
          · have h2 := ih m hm x h1
            by_cases hc : r.week ≤ m
            · rw [if_pos hc] at h; omega
            · rw [if_neg hc] at h; omega

theorem lastWeek_eq_maxW (l : List MRow) : lastWeek (sortByWeek l) = maxW l := by
  cases hm : maxW l with
  | none =>
      have h0 : l = [] := (maxW_eq_none l).mp hm
      subst h0
      simp [sortByWeek, lastWeek]
  | some w =>
      have hlne : l ≠ [] := by
        intro h0; subst h0; simp [maxW] at hm
      have hsne : sortByWeek l ≠ [] := by
        intro h0
        have hlen := (sortByWeek_perm l).length_eq
        rw [h0] at hlen
        exact hlne (List.eq_nil_of_length_eq_zero hlen.symm)
      cases hg : (sortByWeek l).getLast? with
      | none => exact absurd (List.getLast?_eq_none_iff.mp hg) hsne
      | some g =>
          have hgl : g ∈ l :=
            (sortByWeek_perm l).mem_iff.mp (List.mem_of_getLast?_eq_some hg)
          have h1 : g.week ≤ w := maxW_ub l w hm g hgl
          obtain ⟨r, hr, hrw⟩ := maxW_mem l w hm
          have hr2 : r ∈ sortByWeek l := (sortByWeek_perm l).mem_iff.mpr hr
          have h2 : r.week ≤ g.week :=
            sorted_getLast_ub (sortByWeek l) g (sortByWeek_sorted l) hg r hr2
          simp only [lastWeek, hg]
          rw [Option.map_some']
          congr 1
          omega

theorem pairwise_ne_week_unique (l : List MRow)
    (hu : List.Pairwise (fun a b : MRow => a.week ≠ b.week) l)
    (a b : MRow) (ha : a ∈ l) (hb : b ∈ l) (hw : a.week = b.week) : a = b := by
  by_contra hne
  exact List.Pairwise.forall (fun _ _ h => h.symm) hu ha hb hne hw

theorem resolveGo_noerr_acc (resp : SiteRow → RouteResp) :
    ∀ (sites : List SiteRow) (b : SiteRow × Nat × Nat),
      (∀ s ∈ sites, resp s ≠ RouteResp.err) →
      resolveGo resp sites (some b) =
        Except.ok (some (match specFold resp sites with
          | none => b
          | some (s, d, t) => if d < b.2.1 then (s, d, t) else b)) := by
  intro sites
  induction sites with
  | nil => intro b _; simp [resolveGo, specFold]
  | cons s rest ih =>
      intro b he
      obtain ⟨bs, bd, bt⟩ := b
      have hs : resp s ≠ RouteResp.err := he s (by simp)
      have he2 : ∀ x ∈ rest, resp x ≠ RouteResp.err := fun x hx => he x (by simp [hx])
      cases hr : resp s with
      | err => exact absurd hr hs
      | noRoute =>
          simp only [resolveGo, hr]
          rw [ih (bs, bd, bt) he2]
          simp [specFold, hr]
      | route d t =>
          simp only [resolveGo, hr]
          by_cases hd : d < bd
          · rw [if_pos hd, ih (s, d, t) he2]
            cases hrest : specFold resp rest with
            | none => simp [specFold, hr, hrest, hd]
            | some v =>
                obtain ⟨s2, d2, t2⟩ := v
                simp only [specFold, hr, hrest]
                by_cases h2 : d2 < d
                · have h3 : d2 < bd := by omega
                  simp [h2, h3]
                · simp [h2, hd]
          · rw [if_neg hd, ih (bs, bd, bt) he2]
            cases hrest : specFold resp rest with
            | none => simp [specFold, hr, hrest, hd]
            | some v =>
                obtain ⟨s2, d2, t2⟩ := v
                simp only [specFold, hr, hrest]
                by_cases h2 : d2 < d
                · simp [h2]
                · have h3 : ¬ d2 < bd := by omega
                  simp [h2, h3, hd]

theorem resolveGo_none_eq_specFold (resp : SiteRow → RouteResp) (sites : List SiteRow)
    (he : ∀ s ∈ sites, resp s ≠ RouteResp.err) :
    resolveGo resp sites none = Except.ok (specFold resp sites) := by
  induction sites with
  | nil => simp [resolveGo, specFold]
  | cons s rest ih =>
      have hs : resp s ≠ RouteResp.err := he s (by simp)
      have he2 : ∀ x ∈ rest, resp x ≠ RouteResp.err := fun x hx => he x (by simp [hx])
      cases hr : resp s with
      | err => exact absurd hr hs
      | noRoute => simp [resolveGo, hr, specFold, ih he2]
      | route d t =>
          simp only [resolveGo, hr]
          rw [resolveGo_noerr_acc resp rest (s, d, t) he2]
          cases hrest : specFold resp rest with
          | none => simp [specFold, hr, hrest]
          | some v =>
              obtain ⟨s2, d2, t2⟩ := v
              simp only [specFold, hr, hrest]
              by_cases h2 : d2 < d
              · simp [h2]
              · simp [h2]

theorem specFold_none (resp : SiteRow → RouteResp) :
    ∀ sites, specFold resp sites = none →
      ∀ x ∈ sites, ∀ d t, resp x ≠ RouteResp.route d t := by
  intro sites
  induction sites with
  | nil => simp
  | cons s rest ih =>
      intro h x hx d t
      cases hr : resp s with
      | route d0 t0 =>
          exfalso
          simp only [specFold, hr] at h
          cases hrest : specFold resp rest with
          | none => rw [hrest] at h; simp at h
          | some v =>
              obtain ⟨s2, d2, t2⟩ := v
              rw [hrest] at h
              by_cases h2 : d2 < d0
              · simp [h2] at h
              · simp [h2] at h
      | noRoute =>
          simp only [specFold, hr] at h
          rcases List.mem_cons.mp hx with h1 | h1
          · subst h1; rw [hr]; simp
          · exact ih h x h1 d t
      | err =>
          simp only [specFold, hr] at h
          rcases List.mem_cons.mp hx with h1 | h1
          · subst h1; rw [hr]; simp
          · exact ih h x h1 d t

theorem specFold_min (resp : SiteRow → RouteResp) :
    ∀ sites s d t, specFold resp sites = some (s, d, t) →
      s ∈ sites ∧ resp s = RouteResp.route d t ∧
        ∀ x ∈ sites, ∀ d2 t2, resp x = RouteResp.route d2 t2 → d ≤ d2 := by
  intro sites
  induction sites with
  | nil => intro s d t h; simp [specFold] at h
  | cons s0 rest ih =>
      intro s d t h
      cases hr : resp s0 with
      | noRoute =>
          simp only [specFold, hr] at h
          obtain ⟨hmem, hresp, hmin⟩ := ih s d t h
          refine ⟨List.mem_cons_of_mem _ hmem, hresp, ?_⟩
          intro x hx d2 t2 hx2
          rcases List.mem_cons.mp hx with h1 | h1
          · subst h1; rw [hr] at hx2; exact absurd hx2 (by simp)
          · exact hmin x h1 d2 t2 hx2
      | err =>
          simp only [specFold, hr] at h
          obtain ⟨hmem, hresp, hmin⟩ := ih s d t h
          refine ⟨List.mem_cons_of_mem _ hmem, hresp, ?_⟩
          intro x hx d2 t2 hx2
          rcases List.mem_cons.mp hx with h1 | h1
          · subst h1; rw [hr] at hx2; exact absurd hx2 (by simp)
          · exact hmin x h1 d2 t2 hx2
      | route d0 t0 =>
          simp only [specFold, hr] at h
          cases hrest : specFold resp rest with
          | none =>
              rw [hrest] at h
              simp only [Option.some.injEq, Prod.mk.injEq] at h
              obtain ⟨rfl, rfl, rfl⟩ := h
              refine ⟨by simp, hr, ?_⟩
              intro x hx d2 t2 hx2
              rcases List.mem_cons.mp hx with h1 | h1
              · subst h1; rw [hr] at hx2
                simp only [RouteResp.route.injEq] at hx2
                omega
              · exact absurd hx2 (specFold_none resp rest hrest x h1 d2 t2)
          | some v =>
              obtain ⟨s2, d2, t2⟩ := v
              simp only [hrest] at h
              obtain ⟨hmem2, hresp2, hmin2⟩ := ih s2 d2 t2 hrest
              by_cases h2 : d2 < d0
              · rw [if_pos h2] at h
                simp only [Option.some.injEq, Prod.mk.injEq] at h
                obtain ⟨rfl, rfl, rfl⟩ := h
                refine ⟨List.mem_cons_of_mem _ hmem2, hresp2, ?_⟩
                intro x hx dx tx hxr
                rcases List.mem_cons.mp hx with h1 | h1
                · subst h1; rw [hr] at hxr
                  simp only [RouteResp.route.injEq] at hxr
                  omega
                · exact hmin2 x h1 dx tx hxr
              · rw [if_neg h2] at h
                simp only [Option.some.injEq, Prod.mk.injEq] at h
                obtain ⟨rfl, rfl, rfl⟩ := h
                refine ⟨by simp, hr, ?_⟩
                intro x hx dx tx hxr
                rcases List.mem_cons.mp hx with h1 | h1
                · subst h1; rw [hr] at hxr
                  simp only [RouteResp.route.injEq] at hxr
                  omega
                · have := hmin2 x h1 dx tx hxr
                  omega

theorem resolveGo_skip (resp : SiteRow → RouteResp) (s : SiteRow) (post : List SiteRow)
    (h : resp s = RouteResp.noRoute) :
    ∀ (pre : List SiteRow) (b : Option (SiteRow × Nat × Nat)),
      resolveGo resp (pre ++ s :: post) b = resolveGo resp (pre ++ post) b := by
  intro pre
  induction pre with
  | nil => intro b; simp [resolveGo, h]
  | cons x xs ih =>
      intro b
      cases hrx : resp x with
      | err => simp [List.cons_append, resolveGo, hrx]
      | noRoute =>
          simp only [List.cons_append, resolveGo, hrx]
          exact ih b
      | route d t =>
          cases b with
          | none =>
              simp only [List.cons_append, resolveGo, hrx]
              exact ih _
          | some b2 =>
              obtain ⟨bs, bd, bt⟩ := b2
              simp only [List.cons_append, resolveGo, hrx]
              by_cases hd : d < bd
              · rw [if_pos hd, if_pos hd]; exact ih _
              · rw [if_neg hd, if_neg hd]; exact ih _

theorem resolveGo_all_noroute (resp : SiteRow → RouteResp) :
    ∀ sites, (∀ s ∈ sites, resp s = RouteResp.noRoute) →
      resolveGo resp sites none = Except.ok none := by
  intro sites
  induction sites with
  | nil => intro _; simp [resolveGo]
  | cons s rest ih =>
      intro h
      have hs : resp s = RouteResp.noRoute := h s (by simp)
      simp only [resolveGo, hs]
      exact ih (fun x hx => h x (by simp [hx]))

theorem meanOpt_perm (l1 l2 : List ℚ) (h : l1.Perm l2) : meanOpt l1 = meanOpt l2 := by
  cases hc : l1 with
  | nil =>
      rw [hc] at h
      have hc2 : l2 = [] := List.perm_nil.mp h.symm
      rw [hc2]
  | cons a l =>
      rw [hc] at h
      cases hc2 : l2 with
      | nil =>
          rw [hc2] at h
          exact absurd (List.perm_nil.mp h) (by simp)
      | cons b m =>
          rw [hc2] at h
          simp only [meanOpt, List.isEmpty_cons, Bool.false_eq_true, if_false]
          rw [h.sum_eq, h.length_eq]

/-! ## Claim theorems -/

/-- C1, counterexample: the claim quantifies over every sequence of per-site
routing responses and predicts, for sites A, B, C where A routes at 500 m,
B's request raises and C routes at 700 m, the minimum of the remaining
successful results (A at 500 m).  The code instead aborts the whole
resolution from inside the loop — the callback-wide `except` catches the
exception — and reports an error result, not the fold's minimum. -/
theorem nearest_site_error_aborts_cex :
    pick_nearest_site "1600 Clifton Rd NE" respAbortMid [siteA, siteB, siteC] =
      ResolveResult.error ∧
    (ResolveResult.error : ResolveResult) ≠ ResolveResult.found "A" 500 100 := by
  exact ⟨by decide, by decide⟩

/-- C1 (amended): provided the origin text is nonempty and no per-site
routing request raises an exception (every response is a usable route or a
no-route result), `pick_nearest_site` computes the stable minimum fold: it
agrees with the spec-side fold `nearestSpec`, and any winner of that fold is
a catalog site with a usable route whose distance is least among all routed
sites (the fold keeps the earlier site on exact ties by construction, since
a later candidate replaces the running best only on a strictly smaller
distance). -/
theorem nearest_site_min_fold (address : String) (resp : SiteRow → RouteResp)
    (sites : List SiteRow) (ha : address ≠ "")
    (he : ∀ s ∈ sites, resp s ≠ RouteResp.err) :
    pick_nearest_site address resp sites = nearestSpec resp sites
  ∧ ∀ s d t, specFold resp sites = some (s, d, t) →
      s ∈ sites ∧ resp s = RouteResp.route d t ∧
        ∀ x ∈ sites, ∀ d2 t2, resp x = RouteResp.route d2 t2 → d ≤ d2 := by
  constructor
  · simp only [pick_nearest_site, if_neg ha, nearestSpec]
    rw [resolveGo_none_eq_specFold resp sites he]
    cases specFold resp sites with
    | none => rfl
    | some v =>
        obtain ⟨s, d, t⟩ := v
        rfl
  · intro s d t h
    exact specFold_min resp sites s d t h

/-- Witness for C1: with distances 500, 300, 700 for A, B, C the resolver
returns B at 300 m. -/
theorem nearest_site_min_fold_witness :
    pick_nearest_site "1600 Clifton Rd" respMin [siteA, siteB, siteC] =
      ResolveResult.found "B" 300 120 := by
  have h := nearest_site_min_fold "1600 Clifton Rd" respMin [siteA, siteB, siteC]
    (by decide) (by decide)
  exact h.1.trans (by decide)

/-- C2, counterexample: for sites A, B, C where A routes at 500 m, B's
request raises and C routes at 300 m, the claim ("a failure — whether the
request errors or merely returns no usable route — causes only that site to
be skipped") predicts that iteration continues and C wins at 300 m.  The
code aborts on the raised exception and returns the error branch instead. -/
theorem nearest_site_error_not_skipped_cex :
    pick_nearest_site "Druid Hills" respAbortSkip [siteA, siteB, siteC] =
      ResolveResult.error ∧
    (ResolveResult.error : ResolveResult) ≠ ResolveResult.found "C" 300 50 := by
  exact ⟨by decide, by decide⟩

/-- C2 (amended): a per-site routing request that returns no usable route
causes only that site to be skipped — resolving a catalog with such a site
is identical to resolving the catalog without it — while a request that
raises an exception aborts the whole resolution (see the counterexample). -/
theorem nearest_site_skip_noroute (address : String) (resp : SiteRow → RouteResp)
    (pre post : List SiteRow) (s : SiteRow) (h : resp s = RouteResp.noRoute) :
    pick_nearest_site address resp (pre ++ s :: post) =
      pick_nearest_site address resp (pre ++ post) := by
  by_cases ha : address = ""
  · simp [pick_nearest_site, ha]
  · simp only [pick_nearest_site, if_neg ha]
    rw [resolveGo_skip resp s post h pre none]

/-- Witness for C2: dropping the no-route site B from the scan leaves the
result unchanged. -/
theorem nearest_site_skip_noroute_witness :
    pick_nearest_site "Emory Village" respSkipDemo ([siteA] ++ siteB :: [siteC]) =
      pick_nearest_site "Emory Village" respSkipDemo ([siteA] ++ [siteC]) :=
  nearest_site_skip_noroute "Emory Village" respSkipDemo [siteA] [siteC] siteB (by decide)

/-- C4: when the origin text is nonempty and every site's routing request
returns no usable route, the resolver scans the full catalog and returns the
not-found result carrying the no-route message, rather than raising. -/
theorem nearest_site_not_found (address : String) (resp : SiteRow → RouteResp)
    (sites : List SiteRow) (ha : address ≠ "")
    (h : ∀ s ∈ sites, resp s = RouteResp.noRoute) :
    pick_nearest_site address resp sites = ResolveResult.notFound noRouteMsg := by
  simp only [pick_nearest_site, if_neg ha]
  rw [resolveGo_all_noroute resp sites h]

/-- Witness for C4: all three sites return no route. -/
theorem nearest_site_not_found_witness :
    pick_nearest_site "Decatur Square" respNone [siteA, siteB, siteC] =
      ResolveResult.notFound noRouteMsg :=
  nearest_site_not_found "Decatur Square" respNone [siteA, siteB, siteC]
    (by decide) (by decide)

/-- C3, counterexample: the claim says cleaning a raw numeric field either
produces a number or nulls the field and never raises.  For the E. coli and
total-coliform columns the code calls `pd.to_numeric` without
`errors="coerce"`, so the garbage value "abc" raises (aborting the
pipeline); only the turbidity column is coerced to null. -/
theorem cleaning_raises_cex :
    clean_coli (some "abc") = Except.error () ∧
    clean_turbidity (some "abc") = none := by
  exact ⟨by rfl, by decide⟩

/-- C3 (amended): turbidity cleaning is total — it always yields a number or
null and never raises — while the coliform/E. coli cleaning raises exactly
when a present value fails to parse after the censoring marker is removed
(so the pipeline does not survive arbitrary malformed input in those two
columns). -/
theorem cleaning_totality_amended (v : Option String) :
    (clean_turbidity v = none ∨ ∃ q, clean_turbidity v = some q) ∧
    (clean_coli v = Except.error () ↔ ∃ s, v = some s ∧ parseNum (stripGt s) = none) := by
  constructor
  · cases h : clean_turbidity v with
    | none => exact Or.inl rfl
    | some q => exact Or.inr ⟨q, rfl⟩
  · cases v with
    | none => simp [clean_coli]
    | some s =>
        simp only [clean_coli]
        cases hp : parseNum (stripGt s) with
        | none =>
            constructor
            · intro _
              exact ⟨s, rfl, hp⟩
            · intro _
              rfl
        | some q =>
            constructor
            · intro h
              exact absurd h (by simp)
            · rintro ⟨s2, hs2, hp2⟩
              injection hs2 with hs2
              subst hs2
              rw [hp] at hp2
              exact absurd hp2 (by simp)

/-- Witness for C3: a present unparsable value makes the coliform cleaning
raise. -/
theorem cleaning_totality_witness :
    clean_coli (some "xyz") = Except.error () :=
  (cleaning_totality_amended (some "xyz")).2.mpr ⟨"xyz", rfl, by decide⟩

/-- C8: the textual cleaning stage is idempotent — cleaning a value from
which the censoring markers were already stripped gives the same result as
cleaning the original — and the censored value ">2400" cleans to the numeric
bound 2400. -/
theorem cleaning_idempotent_censored :
    (∀ s : String, cleanField (stripGt s) = cleanField s) ∧
    cleanField ">2400" = some 2400 := by
  constructor
  · intro s
    have h : stripGt (stripGt s) = stripGt s := by
      simp [stripGt, List.filter_filter]
    simp [cleanField, h]
  · decide

/-- C7: weekly aggregation is order-independent — aggregating any
permutation of the cleaned samples yields the same bucket at every
`(site, week)` key, hence the identical bucket set. -/
theorem aggregate_perm_invariant (s1 s2 : List MRow) (h : s1.Perm s2)
    (siteCode : String) (week : Nat) :
    aggregateAt s1 siteCode week = aggregateAt s2 siteCode week := by
  have hg : (groupRows siteCode week s1).Perm (groupRows siteCode week s2) :=
    h.filter _
  have hfield : ∀ f : MField,
      aggField f (groupRows siteCode week s1) = aggField f (groupRows siteCode week s2) := by
    intro f
    exact meanOpt_perm _ _ (hg.filterMap (getField f))
  have hie : (groupRows siteCode week s1).isEmpty = (groupRows siteCode week s2).isEmpty := by
    cases hc : groupRows siteCode week s1 with
    | nil =>
        rw [hc] at hg
        rw [List.perm_nil.mp hg.symm]
    | cons a t =>
        rw [hc] at hg
        cases hc2 : groupRows siteCode week s2 with
        | nil =>
            rw [hc2] at hg
            exact absurd (List.perm_nil.mp hg) (by simp)
        | cons b u => simp
  simp only [aggregateAt, hie, hfield .totColi, hfield .ecoli, hfield .ph,
    hfield .turbidity]

/-- Witness for C7: swapping two same-group samples leaves the bucket
unchanged. -/
theorem aggregate_perm_invariant_witness :
    aggregateAt [aggR1, aggR2] "a" 1 = aggregateAt [aggR2, aggR1] "a" 1 :=
  aggregate_perm_invariant [aggR1, aggR2] [aggR2, aggR1]
    (List.Perm.swap aggR2 aggR1 []) "a" 1

theorem sortByWeek_eq_nil_iff (l : List MRow) : sortByWeek l = [] ↔ l = [] := by
  constructor
  · intro h
    have hlen := (sortByWeek_perm l).length_eq
    rw [h] at hlen
    exact List.eq_nil_of_length_eq_zero hlen.symm
  · intro h
    subst h
    rfl

theorem tailN_sublist (n : Int) (xs : List MRow) : (tailN n xs).Sublist xs := by
  simp only [tailN]
  split
  · exact List.drop_sublist _ _
  · exact List.drop_sublist _ _

theorem tailN_eq_drop (n : Int) (xs : List MRow) : ∃ k, tailN n xs = xs.drop k := by
  simp only [tailN]
  split
  · exact ⟨xs.length - n.toNat, rfl⟩
  · exact ⟨(-n).toNat, rfl⟩

theorem sorted_cross_le (l : List MRow)
    (hs : List.Pairwise (fun a b : MRow => a.week ≤ b.week) l) (j k : Nat)
    (hjk : j ≤ k) : ∀ x ∈ l.take j, ∀ y ∈ l.drop k, x.week ≤ y.week := by
  intro x hx y hy
  have hx2 : x ∈ l.take k := by
    have hjj : l.take j = (l.take k).take j := by
      rw [List.take_take, Nat.min_eq_left hjk]
    rw [hjj] at hx
    exact List.take_subset _ _ hx
  have hsplit := hs
  rw [← List.take_append_drop k l] at hsplit
  obtain ⟨-, -, hcross⟩ := List.pairwise_append.mp hsplit
  exact hcross x hx2 y hy

/-- C10: the percentage-change computation in `get_trends` is total on a
zero baseline — whenever a trend is produced and its first reported value is
exactly 0, the reported percentage change is 0 (the guard
`if first_value != 0 else 0`) rather than a division-by-zero failure. -/
theorem trend_zero_baseline_percent (df : List MRow) (site_name : String)
    (measurement : MField) (weeks : Int) (pts : List (Nat × Option ℚ))
    (ch cp : Option ℚ) (w : Nat)
    (h : get_trends df site_name measurement weeks = TrendResult.trend pts ch cp)
    (h0 : pts.head? = some (w, some 0)) : cp = some 0 := by
  simp only [get_trends] at h
  cases hres : resolveSite site_name with
  | none =>
      simp only [hres] at h
      exact absurd h (by simp)
  | some code =>
      simp only [hres] at h
      by_cases hie : (siteBuckets df code).isEmpty
      · rw [if_pos hie] at h
        exact absurd h (by simp)
      · rw [if_neg hie] at h
        cases ht : tailN weeks (siteBuckets df code) with
        | nil =>
            simp only [ht] at h
            exact absurd h (by simp)
        | cons r rs =>
            cases rs with
            | nil =>
                simp only [ht] at h
                exact absurd h (by simp)
            | cons r2 rest =>
                simp only [ht, TrendResult.trend.injEq] at h
                obtain ⟨hpts, -, hcp⟩ := h
                subst hpts
                simp only [List.map_cons, List.head?_cons, Option.some.injEq,
                  Prod.mk.injEq] at h0
                obtain ⟨-, h00⟩ := h0
                rw [← hcp, if_pos h00]

/-- Witness for C10: two buckets with E. coli values 0 then 5 yield change 5
and percentage change 0. -/
theorem trend_zero_baseline_witness :
    get_trends zeroBaselineDf "peav@oldb" MField.ecoli 8 =
      TrendResult.trend [(1, some 0), (2, some 5)] (some 5) (some 0) ∧
    (some (0 : ℚ)) = some 0 := by
  have hmain : get_trends zeroBaselineDf "peav@oldb" MField.ecoli 8 =
      TrendResult.trend [(1, some 0), (2, some 5)] (some 5) (some 0) := by
    have hres : resolveSite "peav@oldb" = some "peav@oldb" := by decide
    have htl : tailN 8 (siteBuckets zeroBaselineDf "peav@oldb") = zeroBaselineDf := by
      decide
    have hsb : siteBuckets zeroBaselineDf "peav@oldb" = zeroBaselineDf := by decide
    simp only [get_trends, hres]
    rw [hsb, show tailN (8 : Int) zeroBaselineDf = zeroBaselineDf from by decide]
    simp only [zeroBaselineDf, List.isEmpty_cons, Bool.false_eq_true, if_false,
      lastRow, getField, List.map_cons, List.map_nil, TrendResult.trend.injEq]
    norm_num [subO]
  refine ⟨hmain, ?_⟩
  exact trend_zero_baseline_percent zeroBaselineDf "peav@oldb" MField.ecoli 8
    [(1, some 0), (2, some 5)] (some 5) (some 0) 1 hmain (by decide)

/-- C6, counterexample: for a known catalog site with zero buckets, the
claim predicts the insufficient-data condition (fewer than 2 buckets in the
window), but `get_trends` returns the distinct "No data available" condition
before the window is ever formed. -/
theorem trend_no_data_cex :
    get_trends [] "peav@oldb" MField.ecoli 8 = TrendResult.noData ∧
    TrendResult.noData ≠ TrendResult.insufficient := by
  exact ⟨by decide, by decide⟩

/-- C6 (amended): for a known site, when the site has at least one bucket
and the (nonempty) window holds fewer than 2 of them, `get_trends` fails
with the insufficient-data condition; with at least 2 buckets in the window
it returns exactly the most recent `windowCount` buckets in ascending week
order (every bucket left out is no newer than every bucket included), with a
change equal to last minus first.  A site with zero buckets instead yields
the distinct no-data condition (see the counterexample), and an empty window
the no-recent-data condition. -/
theorem trend_window_amended (df : List MRow) (site_name code : String)
    (measurement : MField) (weeks : Int)
    (hres : resolveSite site_name = some code) :
    (df.filter (fun r => r.site == code) ≠ [] →
       tailN weeks (siteBuckets df code) ≠ [] →
       (tailN weeks (siteBuckets df code)).length < 2 →
       get_trends df site_name measurement weeks = TrendResult.insufficient)
  ∧ (2 ≤ (tailN weeks (siteBuckets df code)).length →
      ∃ cp,
        get_trends df site_name measurement weeks =
          TrendResult.trend
            ((tailN weeks (siteBuckets df code)).map
              (fun r => (r.week, getField measurement r)))
            (subO ((tailN weeks (siteBuckets df code)).getLast?.bind
                     (fun r => getField measurement r))
                  ((tailN weeks (siteBuckets df code)).head?.bind
                     (fun r => getField measurement r)))
            cp
        ∧ List.Pairwise (fun a b => a ≤ b)
            ((tailN weeks (siteBuckets df code)).map (fun r => r.week))
        ∧ (∀ x ∈ (siteBuckets df code).take
              ((siteBuckets df code).length - (tailN weeks (siteBuckets df code)).length),
             ∀ y ∈ tailN weeks (siteBuckets df code), x.week ≤ y.week)
        ∧ (0 ≤ weeks →
            (tailN weeks (siteBuckets df code)).length =
              min weeks.toNat (df.filter (fun r => r.site == code)).length)) := by
  have hsorted : List.Pairwise (fun a b : MRow => a.week ≤ b.week) (siteBuckets df code) := by
    simp only [siteBuckets]
    exact sortByWeek_sorted _
  constructor
  · intro hbne hrne hlen
    simp only [get_trends, hres]
    cases hsb : siteBuckets df code with
    | nil =>
        simp only [siteBuckets] at hsb
        exact absurd ((sortByWeek_eq_nil_iff _).mp hsb) hbne
    | cons a t =>
        rw [hsb] at hrne hlen
        simp only [List.isEmpty_cons, Bool.false_eq_true, if_false]
        cases htl : tailN weeks (a :: t) with
        | nil => exact absurd htl hrne
        | cons r rs =>
            cases rs with
            | nil => simp [htl]
            | cons r2 rest =>
                rw [htl] at hlen
                simp only [List.length_cons] at hlen
                omega
  · intro h2
    cases hsb : siteBuckets df code with
    | nil =>
        rw [hsb] at h2
        simp [tailN] at h2
    | cons a t =>
        rw [hsb] at h2
        cases htl : tailN weeks (a :: t) with
        | nil =>
            rw [htl] at h2
            simp at h2
        | cons r rs =>
            cases rs with
            | nil =>
                rw [htl] at h2
                simp at h2
            | cons r2 rest =>
                refine ⟨(if getField measurement r = some 0 then some 0
                         else mulO (divO (subO (getField measurement (lastRow r2 rest))
                                               (getField measurement r))
                                         (getField measurement r)) (some 100)), ?_, ?_, ?_, ?_⟩
                · simp only [get_trends, hres]
                  rw [hsb, htl]
                  simp only [List.isEmpty_cons, Bool.false_eq_true, if_false,
                    getLast?_lastRow, lastRow, List.head?_cons, Option.some_bind]
                · apply List.pairwise_map.mpr
                  have hp : List.Pairwise (fun a b : MRow => a.week ≤ b.week)
                      (tailN weeks (siteBuckets df code)) :=
                    List.Pairwise.sublist (tailN_sublist weeks _) hsorted
                  rw [hsb, htl] at hp
                  exact hp
                · obtain ⟨k, hk⟩ := tailN_eq_drop weeks (siteBuckets df code)
                  rw [hsb, htl] at hk
                  rw [hk]
                  have hsorted2 : List.Pairwise (fun a b : MRow => a.week ≤ b.week) (a :: t) := by
                    rw [hsb] at hsorted
                    exact hsorted
                  apply sorted_cross_le _ hsorted2 _ k
                  rw [List.length_drop]
                  omega
                · intro hw
                  have h1 : tailN weeks (siteBuckets df code) =
                      (siteBuckets df code).drop ((siteBuckets df code).length - weeks.toNat) := by
                    simp only [tailN]
                    rw [if_pos hw]
                  rw [hsb, htl] at h1
                  have hlen2 : (siteBuckets df code).length =
                      (df.filter (fun r => r.site == code)).length := by
                    simp only [siteBuckets]
                    exact (sortByWeek_perm _).length_eq
                  rw [hsb] at hlen2
                  have h3 : (r :: r2 :: rest).length = ((a :: t).drop ((a :: t).length - weeks.toNat)).length := by
                    rw [h1]
                  rw [List.length_drop] at h3
                  rcases le_total weeks.toNat (df.filter (fun r => r.site == code)).length with hc | hc
                  · rw [min_eq_left hc]
                    omega
                  · rw [min_eq_right hc]
                    omega

/-- Witness for C6: with three buckets and a window of one, the window is
nonempty but smaller than two points, so the analysis reports insufficient
data. -/
theorem trend_window_witness :
    get_trends trendDf "peav@oldb" MField.ecoli 1 = TrendResult.insufficient := by
  have h := trend_window_amended trendDf "peav@oldb" "peav@oldb" MField.ecoli 1 (by decide)
  exact h.1 (by decide) (by decide) (by decide)

theorem lastNN_concat (f : MRow → Option ℚ) (l : List MRow) (r : MRow) (v : ℚ)
    (h : f r = some v) : lastNN f (l ++ [r]) = some v := by
  simp [lastNN, List.foldl_append, h]

theorem argmaxWeek_mem (l : List MRow) (r : MRow) (h : argmaxWeek l = some r) :
    r ∈ l := by
  simp only [argmaxWeek] at h
  cases hm : maxW l with
  | none => rw [hm] at h; simp at h
  | some w =>
      simp only [hm] at h
      exact List.mem_of_find?_eq_some h

theorem argmaxWeek_week (l : List MRow) (r : MRow) (h : argmaxWeek l = some r) :
    maxW l = some r.week := by
  simp only [argmaxWeek] at h
  cases hm : maxW l with
  | none => rw [hm] at h; simp at h
  | some w =>
      simp only [hm] at h
      have := List.find?_some h
      simp only [beq_iff_eq] at this
      rw [this]

theorem sortByWeek_getLast_argmax (l : List MRow)
    (hu : List.Pairwise (fun a b : MRow => a.week ≠ b.week) l)
    (r : MRow) (hr : argmaxWeek l = some r) :
    (sortByWeek l).getLast? = some r := by
  have hrl : r ∈ l := argmaxWeek_mem l r hr
  have hrw : maxW l = some r.week := argmaxWeek_week l r hr
  cases hg : (sortByWeek l).getLast? with
  | none =>
      have h0 : sortByWeek l = [] := List.getLast?_eq_none_iff.mp hg
      have h1 : l = [] := (sortByWeek_eq_nil_iff l).mp h0
      subst h1
      simp at hrl
  | some g =>
      have hlw : lastWeek (sortByWeek l) = some r.week := by
        rw [lastWeek_eq_maxW]
        exact hrw
      have hgw : g.week = r.week := by
        simp only [lastWeek, hg, Option.map_some'] at hlw
        simpa using hlw
      have hgl : g ∈ l := (sortByWeek_perm l).mem_iff.mp (List.mem_of_getLast?_eq_some hg)
      have hge : g = r := pairwise_ne_week_unique l hu g r hgl hrl hgw
      rw [hge]

/-- C5, counterexample: buckets for one site where the latest bucket (week 2)
has a null turbidity while an earlier bucket (week 1) has turbidity 5.  The
claim says every field of the summary comes from the single latest bucket
(turbidity null, as `specLatestRow` reports); the code's column-wise
`groupby(...).last()` instead reports turbidity 5 taken from the older
bucket. -/
theorem summary_latest_mixed_buckets_cex :
    buildSummary ["a"] mixedBuckets =
      [⟨"a", some 2, some 1, some 200, some 7, some 5⟩] ∧
    specLatestRow "a" mixedBuckets = ⟨"a", some 2, some 1, some 200, some 7, none⟩ := by
  exact ⟨by decide, by decide⟩

/-- C5 (amended): every catalog site appears in the summary set, a site
absent from all buckets appears with every latest field null, the reported
date is the site's maximum `weekStart`, and each measurement field agrees
with the bucket of maximum `weekStart` whenever that bucket's field is
non-null — but a null field of the latest bucket is instead back-filled from
an older bucket (see the counterexample), because `groupby(...).last()`
takes the last non-null entry of each column independently. -/
theorem summary_latest_amended (catalog : List String) (buckets : List MRow)
    (siteCode : String) (hs : siteCode ∈ catalog)
    (hu : List.Pairwise (fun a b : MRow => a.week ≠ b.week)
            (buckets.filter (fun r => r.site == siteCode))) :
    recentFor siteCode buckets ∈ buildSummary catalog buckets
  ∧ (buckets.filter (fun r => r.site == siteCode) = [] →
      recentFor siteCode buckets = ⟨siteCode, none, none, none, none, none⟩)
  ∧ (recentFor siteCode buckets).week =
      maxW (buckets.filter (fun r => r.site == siteCode))
  ∧ (∀ f r v, argmaxWeek (buckets.filter (fun r => r.site == siteCode)) = some r →
      getField f r = some v → getSField f (recentFor siteCode buckets) = some v) := by
  refine ⟨?_, ?_, ?_, ?_⟩
  · simp only [buildSummary]
    exact List.mem_map_of_mem _ hs
  · intro hemp
    simp [recentFor, hemp, sortByWeek]
  · by_cases hemp : buckets.filter (fun r => r.site == siteCode) = []
    · simp [recentFor, hemp, sortByWeek, maxW]
    · have hne : ¬ (sortByWeek (buckets.filter (fun r => r.site == siteCode))).isEmpty = true := by
        intro hie
        exact hemp ((sortByWeek_eq_nil_iff _).mp (List.isEmpty_iff.mp hie))
      simp only [recentFor, if_neg hne]
      exact lastWeek_eq_maxW _
  · intro f r v hr hv
    have hne : buckets.filter (fun q => q.site == siteCode) ≠ [] := by
      intro h0
      rw [h0] at hr
      simp [argmaxWeek, maxW] at hr
    have hne3 : sortByWeek (buckets.filter (fun q => q.site == siteCode)) ≠ [] := by
      intro h0
      exact hne ((sortByWeek_eq_nil_iff _).mp h0)
    have hne2 : ¬ (sortByWeek (buckets.filter (fun q => q.site == siteCode))).isEmpty = true := by
      intro hie
      exact hne3 (List.isEmpty_iff.mp hie)
    have hlast : (sortByWeek (buckets.filter (fun q => q.site == siteCode))).getLast? = some r :=
      sortByWeek_getLast_argmax _ hu r hr
    have hsplit : sortByWeek (buckets.filter (fun q => q.site == siteCode)) =
        (sortByWeek (buckets.filter (fun q => q.site == siteCode))).dropLast ++ [r] := by
      conv_lhs => rw [← List.dropLast_append_getLast hne3]
      have hgl := List.getLast?_eq_getLast
        (sortByWeek (buckets.filter (fun q => q.site == siteCode))) hne3
      rw [hgl] at hlast
      injection hlast with hlast
      rw [hlast]
    cases f with
    | totColi =>
        simp only [recentFor, if_neg hne2, getSField]
        rw [hsplit]
        exact lastNN_concat _ _ r v hv
    | ecoli =>
        simp only [recentFor, if_neg hne2, getSField]
        rw [hsplit]
        exact lastNN_concat _ _ r v hv
    | ph =>
        simp only [recentFor, if_neg hne2, getSField]
        rw [hsplit]
        exact lastNN_concat _ _ r v hv
    | turbidity =>
        simp only [recentFor, if_neg hne2, getSField]
        rw [hsplit]
        exact lastNN_concat _ _ r v hv

/-- Witness for C5: with a fully populated latest bucket (week 2) the
summary's E. coli value is that bucket's value 200. -/
theorem summary_latest_witness :
    getSField MField.ecoli (recentFor "a" fullBuckets) = some 200 := by
  have h := summary_latest_amended ["a"] fullBuckets "a" (by decide) (by decide)
  exact h.2.2.2 MField.ecoli ⟨"a", 2, some 3, some 200, some 8, some 6⟩ 200
    (by decide) (by decide)

theorem insDesc_perm (x : CompEntry) (l : List CompEntry) :
    (insDesc x l).Perm (x :: l) := by
  induction l with
  | nil => simp [insDesc]
  | cons y ys ih =>
      simp only [insDesc]
      by_cases h : ltVal x.2.1 y.2.1 = true
      · rw [if_pos h]
        exact (ih.cons y).trans (List.Perm.swap x y ys)
      · rw [if_neg h]

theorem sortDesc_perm (l : List CompEntry) : (sortDesc l).Perm l := by
  induction l with
  | nil => simp [sortDesc]
  | cons x xs ih =>
      simpa [sortDesc] using (insDesc_perm x (sortDesc xs)).trans (ih.cons x)

theorem insDesc_sorted (x : CompEntry) (l : List CompEntry)
    (hx : ∃ q, x.2.1 = some q) (hl : ∀ e ∈ l, ∃ q, e.2.1 = some q)
    (h : List.Pairwise (fun a b : CompEntry =>
      ∃ p q, a.2.1 = some p ∧ b.2.1 = some q ∧ q ≤ p) l) :
    List.Pairwise (fun a b : CompEntry =>
      ∃ p q, a.2.1 = some p ∧ b.2.1 = some q ∧ q ≤ p) (insDesc x l) := by
  induction l with
  | nil => simp [insDesc]
  | cons y ys ih =>
      obtain ⟨hy, hys⟩ := List.pairwise_cons.mp h
      obtain ⟨qx, hqx⟩ := hx
      obtain ⟨qy, hqy⟩ := hl y (by simp)
      simp only [insDesc]
      by_cases hlt : ltVal x.2.1 y.2.1 = true
      · rw [if_pos hlt]
        have hqlt : qx < qy := by
          rw [hqx, hqy] at hlt
          simpa [ltVal] using hlt
        refine List.Pairwise.cons ?_ (ih (fun e he => hl e (by simp [he])) hys)
        intro b hb
        rcases List.mem_cons.mp ((insDesc_perm x ys).mem_iff.mp hb) with hb | hb
        · subst hb
          exact ⟨qy, qx, hqy, hqx, le_of_lt hqlt⟩
        · exact hy b hb
      · rw [if_neg hlt]
        have hqge : qy ≤ qx := by
          rw [hqx, hqy] at hlt
          simp only [ltVal, decide_eq_true_eq] at hlt
          exact le_of_not_lt hlt
        refine List.Pairwise.cons ?_ (List.Pairwise.cons hy hys)
        intro b hb
        rcases List.mem_cons.mp hb with hb | hb
        · subst hb
          exact ⟨qx, qy, hqx, hqy, hqge⟩
        · obtain ⟨qy2, qb, hqy2, hqb, hle⟩ := hy b hb
          rw [hqy] at hqy2
          injection hqy2 with hqy2
          refine ⟨qx, qb, hqx, hqb, ?_⟩
          rw [← hqy2] at hle
          exact le_trans hle hqge

theorem sortDesc_sorted (l : List CompEntry)
    (hl : ∀ e ∈ l, ∃ q, e.2.1 = some q) :
    List.Pairwise (fun a b : CompEntry =>
      ∃ p q, a.2.1 = some p ∧ b.2.1 = some q ∧ q ≤ p) (sortDesc l) := by
  induction l with
  | nil => simp [sortDesc]
  | cons x xs ih =>
      exact insDesc_sorted x (sortDesc xs) (hl x (by simp))
        (fun e he => hl e (List.mem_cons_of_mem _ ((sortDesc_perm xs).mem_iff.mp he)))
        (ih (fun e he => hl e (List.mem_cons_of_mem _ he)))

theorem latestOf_eq_argmax (df : List MRow) (code : String)
    (hu : List.Pairwise (fun a b : MRow => a.week ≠ b.week)
            (df.filter (fun r => r.site == code))) :
    latestOf df code = argmaxWeek (df.filter (fun r => r.site == code)) := by
  simp only [latestOf]
  cases hsb : siteBuckets df code with
  | nil =>
      have h1 : df.filter (fun r => r.site == code) = [] := by
        simp only [siteBuckets] at hsb
        exact (sortByWeek_eq_nil_iff _).mp hsb
      rw [h1]
      simp [argmaxWeek, maxW]
  | cons r rs =>
      cases ham : argmaxWeek (df.filter (fun r => r.site == code)) with
      | none =>
          exfalso
          simp only [argmaxWeek] at ham
          cases hm : maxW (df.filter (fun r => r.site == code)) with
          | none =>
              have h1 := (maxW_eq_none _).mp hm
              simp only [siteBuckets, h1, sortByWeek] at hsb
              simp at hsb
          | some w =>
              simp only [hm] at ham
              obtain ⟨r2, hr2, hw2⟩ := maxW_mem _ _ hm
              have := List.find?_eq_none.mp ham r2 hr2
              simp [hw2] at this
      | some g =>
          have h2 := sortByWeek_getLast_argmax _ hu g ham
          simp only [siteBuckets] at hsb
          rw [hsb, getLast?_lastRow] at h2
          injection h2 with h2
          show some (lastRow r rs) = some g
          rw [h2]

/-- C9, counterexample: one site has a single bucket whose E. coli value is
null, and no other site has any data.  The claim says a site with a null
latest value is excluded from the ranking and reported separately as
"no data"; the code instead places that site in the ranking with a NaN
value, and the dataless sites are silently absent with no "no data"
report. -/
theorem compare_sites_null_included_cex :
    compare_sites nullLatestDf MField.ecoli =
      CompareResult.ranking [("Peavine creek/Old briarcliff way", none, 3)] := by
  decide

/-- C9 (amended): whenever every ranked site's latest value is non-null, the
ranking lists entries in descending order of those values; each entry is a
catalog site whose value is the field of its maximum-week bucket (its latest
value only, never an average), and every site with data contributes an
entry.  When no site has data the comparison reports no data.  Sites whose
latest value is null are, contrary to the claim, kept in the ranking, and
dataless sites are silently omitted (see the counterexample). -/
theorem compare_sites_amended (df : List MRow) (measurement : MField)
    (hu : ∀ p ∈ color_map, List.Pairwise (fun a b : MRow => a.week ≠ b.week)
            (df.filter (fun r => r.site == p.1)))
    (hv : ∀ p ∈ color_map, ∀ r ∈ df,
            argmaxWeek (df.filter (fun q => q.site == p.1)) = some r →
            getField measurement r ≠ none) :
    ((∀ p ∈ color_map, df.filter (fun r => r.site == p.1) = []) →
       compare_sites df measurement = CompareResult.noData)
  ∧ (∀ es, compare_sites df measurement = CompareResult.ranking es →
      List.Pairwise (fun a b : CompEntry =>
        ∃ p q, a.2.1 = some p ∧ b.2.1 = some q ∧ q ≤ p) es
      ∧ (∀ e ∈ es, ∃ p ∈ color_map, e.1 = p.2 ∧
          ∃ r, argmaxWeek (df.filter (fun q => q.site == p.1)) = some r ∧
            e.2.1 = getField measurement r ∧ e.2.2 = r.week)
      ∧ (∀ p ∈ color_map, df.filter (fun r => r.site == p.1) ≠ [] →
          ∃ e ∈ es, e.1 = p.2)) := by
  have hmem : ∀ e : CompEntry,
      e ∈ color_map.filterMap (compEntryOf df measurement) →
      ∃ p ∈ color_map, e.1 = p.2 ∧
        ∃ r, argmaxWeek (df.filter (fun q => q.site == p.1)) = some r ∧
          e.2.1 = getField measurement r ∧ e.2.2 = r.week := by
    intro e he
    obtain ⟨p, hp, hpe⟩ := List.mem_filterMap.mp he
    simp only [compEntryOf] at hpe
    cases hl : latestOf df p.1 with
    | none =>
        rw [hl] at hpe
        simp at hpe
    | some r =>
        simp only [hl] at hpe
        have hr : argmaxWeek (df.filter (fun q => q.site == p.1)) = some r := by
          rw [← latestOf_eq_argmax df p.1 (hu p hp)]
          exact hl
        injection hpe with hpe
        subst hpe
        exact ⟨p, hp, rfl, r, hr, rfl, rfl⟩
  have hsome : ∀ e ∈ color_map.filterMap (compEntryOf df measurement),
      ∃ q, e.2.1 = some q := by
    intro e he
    obtain ⟨p, hp, -, r, hr, he2, -⟩ := hmem e he
    have hrmem : r ∈ df := List.mem_of_mem_filter (argmaxWeek_mem _ r hr)
    have hnn := hv p hp r hrmem hr
    cases hgf : getField measurement r with
    | none => exact absurd hgf hnn
    | some q => exact ⟨q, by rw [he2, hgf]⟩
  constructor
  · intro hall
    have hcem : color_map.filterMap (compEntryOf df measurement) = [] := by
      apply List.filterMap_eq_nil_iff.mpr
      intro p hp
      have h1 : df.filter (fun q => q.site == p.1) = [] := hall p hp
      have h2 : latestOf df p.1 = none := by
        simp only [latestOf, siteBuckets, h1]
        rfl
      simp only [compEntryOf, h2]
    simp only [compare_sites, hcem]
    rfl
  · intro es hes
    simp only [compare_sites] at hes
    by_cases hie : (color_map.filterMap (compEntryOf df measurement)).isEmpty = true
    · rw [if_pos hie] at hes
      exact absurd hes (by simp)
    · rw [if_neg hie] at hes
      injection hes with hes
      subst hes
      refine ⟨?_, ?_, ?_⟩
      · exact sortDesc_sorted _ hsome
      · intro e he
        exact hmem e ((sortDesc_perm _).mem_iff.mp he)
      · intro p hp hne
        have hl2 : latestOf df p.1 ≠ none := by
          rw [latestOf_eq_argmax df p.1 (hu p hp)]
          simp only [argmaxWeek]
          cases hm : maxW (df.filter (fun q => q.site == p.1)) with
          | none => exact absurd ((maxW_eq_none _).mp hm) hne
          | some w =>
              obtain ⟨r2, hr2, hw2⟩ := maxW_mem _ _ hm
              intro hfn
              have := List.find?_eq_none.mp hfn r2 hr2
              simp [hw2] at this
        cases hl3 : latestOf df p.1 with
        | none => exact absurd hl3 hl2
        | some r =>
            have hein : ((p.2, getField measurement r, r.week) : CompEntry) ∈
                color_map.filterMap (compEntryOf df measurement) := by
              apply List.mem_filterMap.mpr
              refine ⟨p, hp, ?_⟩
              simp only [compEntryOf, hl3]
            exact ⟨(p.2, getField measurement r, r.week),
              (sortDesc_perm _).mem_iff.mpr hein, rfl⟩

/-- Witness for C9: two sites with non-null latest E. coli values 50 and 80
rank in descending order with the higher value first. -/
theorem compare_sites_amended_witness :
    compare_sites twoSiteDf MField.ecoli =
      CompareResult.ranking
        [("Peavine creek/Oxford Rd NE", some 80, 2),
         ("Peavine creek/Old briarcliff way", some 50, 1)] ∧
    List.Pairwise (fun a b : CompEntry =>
        ∃ p q, a.2.1 = some p ∧ b.2.1 = some q ∧ q ≤ p)
      [(("Peavine creek/Oxford Rd NE", some 80, 2) : CompEntry),
       ("Peavine creek/Old briarcliff way", some 50, 1)] := by
  have hmain : compare_sites twoSiteDf MField.ecoli =
      CompareResult.ranking
        [("Peavine creek/Oxford Rd NE", some 80, 2),
         ("Peavine creek/Old briarcliff way", some 50, 1)] := by decide
  refine ⟨hmain, ?_⟩
  exact ((compare_sites_amended twoSiteDf MField.ecoli (by decide) (by decide)).2
    _ hmain).1
